import Mathlib

/-!
Verification development for the mdict MDX/MDD parser and lookup engine.

The repository contains two variants of the same crate: an older layout
(`src/src/parser.rs`, `src/src/mdx.rs`, `src/src/error.rs`) and a newer one
(`src/mdict/src/parser.rs`, `src/mdict/src/lib.rs`).  The definitions below
are shallow embeddings of the Rust functions of those files.  Conventions:

* Byte sequences and strings are modelled as `List Nat` of byte values
  (respectively Unicode scalar values where the Rust code compares `str`
  values; for valid UTF-8 the byte-wise order used by Rust's `Ord for str`
  coincides with the scalar-value lexicographic order).
* Fallible Rust code returning `Result<T, Error>` becomes `Except Error T`.
* Rust code that can panic (out-of-bounds slicing, arithmetic underflow) is
  embedded inside an outer `Option`: `none` models a panic, `some r` models
  normal termination with result `r`.
* The external crates used by the parser (zlib, minilzo, ripemd, salsa20)
  are not part of this repository; their pure decompression/digest functions
  are passed explicitly as a `Codec` record of function parameters.  The
  Adler-32 checksum (crate `adler32`, `RollingAdler32::from_buffer`) is the
  standard Adler-32 and is modelled concretely.
-/

/-- Error type, embedding `src/src/error.rs` (`enum Error`).  `failedReading`
stands for the io variant; `invalidVersion` carries the version string as a
byte list. -/
inductive Error where
  | failedReading : Error
  | invalidCheckSum : String → Error
  | noVersion : Error
  | invalidVersion : List Nat → Error
  | unsupportedVersion : Nat → Error
  | invalidData : Error
  | invalidEncoding : String → Error
  | invalidEncryptMethod : Nat → Error
  | invalidCompressMethod : Nat → Error
  | invalidPath : Error
deriving DecidableEq, Repr

/-- Format version, embedding `enum Version { V1, V2 }` of both parser
variants. -/
inductive Version where
  | V1 : Version
  | V2 : Version
deriving DecidableEq, Repr

/-- Payload text encoding.  The Rust code stores a `&'static Encoding`
from `encoding_rs`; only the identity of the encoding matters for the
embedded control flow, so encodings are an enumeration of the labels that
actually occur in MDict files. -/
inductive Enc where
  | utf8 : Enc
  | utf16le : Enc
  | gb18030 : Enc
  | big5 : Enc
deriving DecidableEq, Repr

/-- Primary-file kind, embedding `enum Mode { Mdx, Mdd }` of
`src/mdict/src` (the `mdx.rs` of that variant is not under `src/`; the
enum is reconstructed from its uses in `src/mdict/src/parser.rs`). -/
inductive Mode where
  | mdx : Mode
  | mdd : Mode
deriving DecidableEq, Repr

/-- Header record, embedding `struct Header { version, encrypted, encoding }`
of both parser variants (`encrypted: u8` becomes a `Nat`). -/
structure Header where
  version : Version
  encrypted : Nat
  encoding : Enc
deriving DecidableEq, Repr

/-- Key entry, embedding `struct KeyEntry { offset: usize, text: String }`
(`src/src/mdx.rs`).  `text` is the list of scalar values of the string. -/
structure KeyEntry where
  offset : Nat
  text : List Nat
deriving DecidableEq, Repr

/-- Key block, embedding `struct KeyBlock { entries: Vec<KeyEntry> }`. -/
structure KeyBlock where
  entries : List KeyEntry
deriving DecidableEq, Repr

/-- Size pair, embedding
`struct BlockEntryInfo { compressed_size, decompressed_size }`
(`src/src/mdx.rs`). -/
structure BlockEntryInfo where
  compressed_size : Nat
  decompressed_size : Nat
deriving DecidableEq, Repr

/-- Derived record position, embedding `struct RecordOffset`
(`src/src/mdx.rs`). -/
structure RecordOffset where
  buf_offset : Nat
  block_offset : Nat
  record_size : Nat
  decomp_size : Nat
deriving DecidableEq, Repr

/-- Three-way comparison of two byte values, as `Ord::cmp` on `u8` /
`char`. -/
def cmpByte (a b : Nat) : Ordering :=
  if a < b then .lt else if a = b then .eq else .gt

/-- Lexicographic three-way comparison of byte sequences, as `Ord::cmp`
on Rust `&str`/`&[u8]` (shorter prefix compares less). -/
def cmpBytes : List Nat → List Nat → Ordering
  | [], [] => .eq
  | [], _ :: _ => .lt
  | _ :: _, [] => .gt
  | a :: as, b :: bs =>
    match cmpByte a b with
    | .eq => cmpBytes as bs
    | o => o

/-- Rust range slicing `l[a..b]` on a byte slice: `none` models the
out-of-range panic (`a > b` or `b > l.len()`), `some` the sub-slice. -/
def safeSlice (l : List Nat) (a b : Nat) : Option (List Nat) :=
  if a ≤ b ∧ b ≤ l.length then some ((l.drop a).take (b - a)) else none

/-- Rust suffix slicing `l[a..]`: `none` models the out-of-range panic. -/
def safeDrop (l : List Nat) (a : Nat) : Option (List Nat) :=
  if a ≤ l.length then some (l.drop a) else none

/-- Little-endian u32 of the first four bytes (`LE::read_u32`). -/
def le32 (l : List Nat) : Nat :=
  l.getD 0 0 + l.getD 1 0 * 256 + l.getD 2 0 * 65536 + l.getD 3 0 * 16777216

/-- Big-endian u32 of the first four bytes (`BE::read_u32`). -/
def be32 (l : List Nat) : Nat :=
  l.getD 0 0 * 16777216 + l.getD 1 0 * 65536 + l.getD 2 0 * 256 + l.getD 3 0

/-- Big-endian u16 of the first two bytes (`BE::read_u16`). -/
def be16 (l : List Nat) : Nat :=
  l.getD 0 0 * 256 + l.getD 1 0

/-- Big-endian u64 of the first eight bytes (`BE::read_u64`). -/
def be64 (l : List Nat) : Nat :=
  ((((((l.getD 0 0 * 256 + l.getD 1 0) * 256 + l.getD 2 0) * 256 +
    l.getD 3 0) * 256 + l.getD 4 0) * 256 + l.getD 5 0) * 256 +
    l.getD 6 0) * 256 + l.getD 7 0

/-- Adler-32 accumulation loop (crate `adler32`,
`RollingAdler32::from_buffer` followed by `hash()` computes the standard
Adler-32 of the buffer). -/
def adler32_loop : List Nat → Nat → Nat → Nat × Nat
  | [], a, b => (a, b)
  | d :: rest, a, b =>
    adler32_loop rest ((a + d) % 65521) ((b + (a + d) % 65521) % 65521)

/-- Adler-32 checksum of a byte sequence: `(b <<< 16) ||| a` with the
standard `a`/`b` sums. -/
def adler32 (data : List Nat) : Nat :=
  (adler32_loop data 1 0).2 * 65536 + (adler32_loop data 1 0).1

/-- Embeds `check_adler32` (`src/src/parser.rs` lines 82-88 and
`src/mdict/src/parser.rs` lines 77-82).  Note that the section tag of the
error is hard-coded to `"header"` in the source, for every caller. -/
def check_adler32 (data : List Nat) (checksum : Nat) : Except Error Unit :=
  if adler32 data ≠ checksum then .error (.invalidCheckSum "header")
  else .ok ()

/-- Inner loop of `fast_decrypt`: `i` is the running index, `prev` the
previous pre-transform byte.  `key.getD (i % key.length) 0` embeds
`key[i % key.len()]`; every call site passes a 16-byte RIPEMD-128 digest,
for which the two agree (Rust would panic on an empty key). -/
def fast_decrypt_go (key : List Nat) : List Nat → Nat → Nat → List Nat
  | [], _, _ => []
  | b :: rest, i, prev =>
    (((((b >>> 4) ||| ((b <<< 4) % 256)) ^^^ prev) ^^^ (i % 256)) ^^^
      key.getD (i % key.length) 0) :: fast_decrypt_go key rest (i + 1) b

/-- Embeds `fast_decrypt` (`src/src/parser.rs` lines 178-189): the
symmetric fast scramble with initial `prev = 0x36`. -/
def fast_decrypt (encrypted key : List Nat) : List Nat :=
  fast_decrypt_go key encrypted 0 0x36

/-- External pure codec functions used by the parser.  These model the
out-of-repository crates: `zlib` is `compress::zlib::Decoder::read_to_end`
(`none` = decoding failure), `lzo` is `minilzo::decompress` with the
expected decompressed size, `ripemd` is the RIPEMD-128 digest (always 16
bytes long), `salsa` is the Salsa20 keystream XOR with key and 8 zero
bytes of nonce. -/
structure Codec where
  zlib : List Nat → Option (List Nat)
  lzo : List Nat → Nat → Option (List Nat)
  ripemd : List Nat → List Nat
  salsa : List Nat → List Nat → List Nat

/-- Embeds the nested `make_key` of `decode_block`
(`src/src/parser.rs` lines 306-311): RIPEMD-128 of `data[4..8]`.  The
slicing is panic-aware: when `data` is shorter than 8 bytes the slice
expression `&data[4..8]` panics, modelled by `none`. -/
def make_key (c : Codec) (data : List Nat) : Option (List Nat) :=
  (safeSlice data 4 8).map c.ripemd

/-- Embeds `decode_block` (`src/src/parser.rs` lines 303-348, identical to
`src/mdict/src/parser.rs` lines 270-314): header word, checksum,
decryption dispatch, decompression dispatch, Adler-32 verification.
`none` models a panic from out-of-bounds slicing. -/
def decode_block (c : Codec) (slice : List Nat)
    (compressed_size decompressed_size : Nat) :
    Option (Except Error (List Nat)) :=
  match safeSlice slice 0 4 with
  | none => none
  | some encBytes =>
    let enc := le32 encBytes
    match safeSlice slice 4 8 with
    | none => none
    | some checksum_bytes =>
      let checksum := be32 checksum_bytes
      let encryption_method := (enc >>> 4) &&& 0xf
      let compress_method := enc &&& 0xf
      match safeSlice slice 8 compressed_size with
      | none => none
      | some encrypted =>
        let step2 : Option (Except Error (List Nat)) :=
          match encryption_method with
          | 0 => some (.ok encrypted)
          | 1 =>
            match make_key c checksum_bytes with
            | none => none
            | some key => some (.ok (fast_decrypt encrypted key))
          | 2 =>
            match make_key c checksum_bytes with
            | none => none
            | some key => some (.ok (c.salsa key encrypted))
          | m => some (.error (.invalidEncryptMethod m))
        match step2 with
        | none => none
        | some (.error e) => some (.error e)
        | some (.ok compressed) =>
          let step3 : Except Error (List Nat) :=
            match compress_method with
            | 0 => .ok compressed
            | 1 =>
              match c.lzo compressed decompressed_size with
              | none => .error .invalidData
              | some v => .ok v
            | 2 =>
              match c.zlib compressed with
              | none => .error .invalidData
              | some v => .ok v
            | m => .error (.invalidCompressMethod m)
          match step3 with
          | .error e => some (.error e)
          | .ok decompressed =>
            match check_adler32 decompressed checksum with
            | .error e => some (.error e)
            | .ok _ => some (.ok decompressed)

/-- Embeds the nested `read_size` of `decode_key_blocks`
(`src/src/parser.rs` lines 228-235): a u32-BE (V1) or u64-BE (V2) with the
number of bytes consumed; `none` models the slicing panic on a short
buffer. -/
def read_size (header : Header) (data : List Nat) : Option (Nat × Nat) :=
  match header.version with
  | .V1 => (safeSlice data 0 4).map (fun b => (be32 b, 4))
  | .V2 => (safeSlice data 0 8).map (fun b => (be64 b, 8))

/-- Embeds the nested `read_num_bytes` of `decode_key_blocks`
(`src/src/parser.rs` lines 236-243): a u8 (V1) or u16-BE (V2); `none`
models the indexing panic on an empty/short buffer. -/
def read_num_bytes (header : Header) (data : List Nat) : Option (Nat × Nat) :=
  match header.version with
  | .V1 => data.head?.map (fun b => (b, 1))
  | .V2 => (safeSlice data 0 2).map (fun b => (be16 b, 2))

/-- Embeds the nested `text_bytes` of `decode_key_blocks`
(`src/src/parser.rs` lines 244-256): byte length of a head/tail key text
(an extra NUL unit in V2, 2 bytes per unit unless UTF-8). -/
def text_bytes (header : Header) (bytes : Nat) : Nat :=
  let text_size :=
    match header.version with
    | .V1 => bytes
    | .V2 => bytes + 1
  if header.encoding = .utf8 then text_size else text_size * 2

/-- Fuel-indexed walk over the packed key-block-info table, embedding the
`while !slice.is_empty()` loop of `decode_key_blocks`
(`src/src/parser.rs` lines 278-299).  `none` models a panic (or fuel
exhaustion, which is unreachable for fuel greater than `slice.length`
since every iteration consumes at least four bytes).  The loop itself
never produces an `Err`, so the payload is the plain list. -/
def decode_key_blocks_loop (header : Header) :
    Nat → List Nat → Option (List BlockEntryInfo)
  | 0, _ => none
  | fuel + 1, slice =>
    if slice.isEmpty then some []
    else
      match read_size header slice with
      | none => none
      | some (_num_entries, d1) =>
        match safeDrop slice d1 with
        | none => none
        | some s1 =>
          match read_num_bytes header s1 with
          | none => none
          | some (bytes1, d2) =>
            match safeDrop s1 d2 with
            | none => none
            | some s2 =>
              match safeDrop s2 (text_bytes header bytes1) with
              | none => none
              | some s3 =>
                match read_num_bytes header s3 with
                | none => none
                | some (bytes2, d4) =>
                  match safeDrop s3 d4 with
                  | none => none
                  | some s4 =>
                    match safeDrop s4 (text_bytes header bytes2) with
                    | none => none
                    | some s5 =>
                      match read_size header s5 with
                      | none => none
                      | some (compressed_size, d6) =>
                        match safeDrop s5 d6 with
                        | none => none
                        | some s6 =>
                          match read_size header s6 with
                          | none => none
                          | some (decompressed_size, d7) =>
                            match safeDrop s6 d7 with
                            | none => none
                            | some s7 =>
                              match decode_key_blocks_loop header fuel s7 with
                              | none => none
                              | some rest =>
                                some (⟨compressed_size, decompressed_size⟩ :: rest)

/-- Embeds `decode_key_blocks` (`src/src/parser.rs` lines 225-301,
identical to `src/mdict/src/parser.rs` lines 216-268): parses the
key-block-info table into `(compressed_size, decompressed_size)` pairs.
`none` models a panic of the walk on a truncated table. -/
def decode_key_blocks (header : Header) (data : List Nat) :
    Option (List BlockEntryInfo) :=
  decode_key_blocks_loop header (data.length + 1) data

/-- Embeds `read_key_block_infos` (`src/src/parser.rs` lines 191-223,
identical to `src/mdict/src/parser.rs` lines 181-214) applied to the
`block_info_size` bytes already read into `buf`: V1 consumes the table
as-is; V2 checks the `[2,0,0,0]` magic, extracts the u32-BE checksum,
unscrambles with the fast scramble keyed by
RIPEMD-128(checksum bytes ++ u32-LE 0x3695) only when
`header.encrypted == 2`, zlib-decompresses, and verifies the Adler-32.
`none` models a panic; a zlib failure surfaces as an io error through
`?`. -/
def read_key_block_infos (c : Codec) (buf : List Nat) (header : Header) :
    Option (Except Error (List BlockEntryInfo)) :=
  match header.version with
  | .V1 => (decode_key_blocks header buf).map .ok
  | .V2 =>
    match safeSlice buf 0 4 with
    | none => none
    | some magic =>
      if magic ≠ [2, 0, 0, 0] then some (.error .invalidData)
      else
        match safeSlice buf 4 8 with
        | none => none
        | some checksum_bytes =>
          let checksum := be32 checksum_bytes
          match safeDrop buf 8 with
          | none => none
          | some body =>
            let zres :=
              if header.encrypted = 2 then
                c.zlib (fast_decrypt body
                  (c.ripemd (checksum_bytes ++ [0x95, 0x36, 0, 0])))
              else
                c.zlib body
            match zres with
            | none => some (.error .failedReading)
            | some info =>
              match check_adler32 info checksum with
              | .error e => some (.error e)
              | .ok _ => (decode_key_blocks header info).map .ok

/-- Modelled from the spec (section 4.4): the same reader as
`read_key_block_infos` except that the unscrambling condition follows the
spec's words "If header `Encrypted` bit 1 is set" — a bit test
`encrypted &&& 2 ≠ 0` instead of the source's equality `encrypted == 2`.
Used as the refinement target when settling the claim about encrypted
key-block-info tables. -/
def read_key_block_infos_encBit (c : Codec) (buf : List Nat)
    (header : Header) : Option (Except Error (List BlockEntryInfo)) :=
  match header.version with
  | .V1 => (decode_key_blocks header buf).map .ok
  | .V2 =>
    match safeSlice buf 0 4 with
    | none => none
    | some magic =>
      if magic ≠ [2, 0, 0, 0] then some (.error .invalidData)
      else
        match safeSlice buf 4 8 with
        | none => none
        | some checksum_bytes =>
          let checksum := be32 checksum_bytes
          match safeDrop buf 8 with
          | none => none
          | some body =>
            let zres :=
              if header.encrypted &&& 2 ≠ 0 then
                c.zlib (fast_decrypt body
                  (c.ripemd (checksum_bytes ++ [0x95, 0x36, 0, 0])))
              else
                c.zlib body
            match zres with
            | none => some (.error .failedReading)
            | some info =>
              match check_adler32 info checksum with
              | .error e => some (.error e)
              | .ok _ => (decode_key_blocks header info).map .ok

/-- Embeds `impl PartialOrd<str> for KeyBlock::partial_cmp`
(`src/src/parser.rs` lines 473-483, identical to
`src/mdict/src/parser.rs` lines 424-434): `Greater` when the first
entry's text is greater than the word, else `Less` when the last entry's
text is less, else `Equal`; `none` when an entry is missing (the `?`
operator on `first()`/`last()`). -/
def KeyBlock.partialCmp (b : KeyBlock) (word : List Nat) : Option Ordering :=
  match b.entries.head? with
  | none => none
  | some first =>
    if cmpBytes first.text word = .gt then some .gt
    else
      match b.entries.getLast? with
      | none => none
      | some last =>
        if cmpBytes last.text word = .lt then some .lt
        else some .eq

/-- Embeds `impl PartialOrd<str> for KeyEntry::partial_cmp` of the older
variant (`src/src/parser.rs` lines 493-498): plain comparison of the raw
stored text with the word. -/
def KeyEntry.partialCmpSrc (e : KeyEntry) (word : List Nat) :
    Option Ordering :=
  some (cmpBytes e.text word)

/-- Embeds the closure `f` inside
`impl PartialOrd<str> for KeyEntry::partial_cmp` of the newer variant
(`src/mdict/src/parser.rs` lines 445-450):
`w.to_lowercase().chars().filter(|c| c.is_lowercase()).collect()`.
`char::to_lowercase` and `char::is_lowercase` are modelled on the ASCII
range of scalar values (uppercase letters map down, only `a`-`z` are kept);
every theorem below applies the fold to ASCII texts only, where this model
agrees with the Unicode maps of the Rust standard library. -/
def key_fold (w : List Nat) : List Nat :=
  (w.map (fun ch => if 65 ≤ ch ∧ ch ≤ 90 then ch + 32 else ch)).filter
    (fun ch => 97 ≤ ch ∧ ch ≤ 122)

/-- Embeds `impl PartialOrd<str> for KeyEntry::partial_cmp` of the newer
variant (`src/mdict/src/parser.rs` lines 443-454): both the stored text
and the probe word are folded with `key_fold` at comparison time. -/
def KeyEntry.partialCmpMdict (e : KeyEntry) (word : List Nat) :
    Option Ordering :=
  some (cmpBytes (key_fold e.text) (key_fold word))

/-- Block comparison parameterised over a normalization function `n`,
following the spec's comparator contract (section 4.7: a single function
applied to every stored key and to the query) specialised to the block
ordering of section 4.6 step 2.  `KeyBlock.partialCmp` coincides with
`keyBlockCmpWith id`. -/
def keyBlockCmpWith (n : List Nat → List Nat) (b : KeyBlock)
    (word : List Nat) : Option Ordering :=
  match b.entries.head? with
  | none => none
  | some first =>
    if cmpBytes (n first.text) (n word) = .gt then some .gt
    else
      match b.entries.getLast? with
      | none => none
      | some last =>
        if cmpBytes (n last.text) (n word) = .lt then some .lt
        else some .eq

/-- Entry comparison parameterised over a normalization function `n`,
following the spec's comparator contract (section 4.7). -/
def keyEntryCmpWith (n : List Nat → List Nat) (e : KeyEntry)
    (word : List Nat) : Option Ordering :=
  some (cmpBytes (n e.text) (n word))

/-- Fuel-indexed embedding of the `while !slice.is_empty()` loop of
`bisect_search` (`src/src/parser.rs` lines 500-522, identical to
`src/mdict/src/parser.rs` lines 456-476).  The probe index is
`len >> 1`; `Greater` keeps `slice[..idx]`, `Less` keeps
`slice[idx+1..]` or breaks when `idx+1 >= len`, `Equal` returns the
probed element, an incomparable probe breaks.  The outer `Option` is the
fuel: `none` is fuel exhaustion, `some r` the loop's result `r`; fuel
`slice.length + 1` always suffices because the slice strictly shrinks on
every iteration (proved below). -/
def bisect_loop {α : Type} (cmp : α → Option Ordering) :
    Nat → List α → Option (Option α)
  | 0, _ => none
  | _, [] => some none
  | fuel + 1, x :: rest =>
    let slice := x :: rest
    let len := slice.length
    let idx := len / 2
    let current := slice.get ⟨idx,
      Nat.div_lt_self (Nat.succ_pos rest.length) (by omega)⟩
    match cmp current with
      | none => some none
      | some Ordering.gt => bisect_loop cmp fuel (slice.take idx)
      | some Ordering.eq => some (some current)
      | some Ordering.lt =>
        if idx + 1 ≥ len then some none
        else bisect_loop cmp fuel (slice.drop (idx + 1))

/-- Embeds `bisect_search` (`src/src/parser.rs` lines 500-522): the loop
run with sufficient fuel. -/
def bisect_search {α : Type} (slice : List α) (cmp : α → Option Ordering) :
    Option α :=
  (bisect_loop cmp (slice.length + 1) slice).getD none

/-- Embeds `record_offset` (`src/src/parser.rs` lines 524-541, identical
to `src/mdict/src/parser.rs` lines 478-496): walks `records_info`
accumulating decompressed (`block_offset`) and compressed (`buf_offset`)
sizes until the block containing the entry offset is found. -/
def record_offset_go (entryOffset : Nat) :
    List BlockEntryInfo → Nat → Nat → Option RecordOffset
  | [], _, _ => none
  | info :: rest, block_offset, buf_offset =>
    if entryOffset < block_offset + info.decompressed_size then
      some ⟨buf_offset, entryOffset - block_offset,
        info.compressed_size, info.decompressed_size⟩
    else
      record_offset_go entryOffset rest
        (block_offset + info.decompressed_size)
        (buf_offset + info.compressed_size)

/-- Embeds `record_offset`: entry point with both accumulators at 0. -/
def record_offset (records_info : List BlockEntryInfo) (entry : KeyEntry) :
    Option RecordOffset :=
  record_offset_go entry.offset records_info 0 0

/-- Embeds `slice_to_string` (`src/mdict/src/parser.rs` lines 498-505,
identical to the nested `find` of `find_definition` in
`src/src/parser.rs` lines 545-551): locate the first zero byte at index
`idx` and decode the bytes `slice[..idx - 1]`.  The payload returned here
is the byte sequence handed to the external text decoder.  When the first
zero byte sits at index 0, `idx - 1` underflows `usize` and the slicing
panics, modelled by `none`; a missing zero byte is `invalid-data`. -/
def slice_to_string (slice : List Nat) : Option (Except Error (List Nat)) :=
  match slice.findIdx? (fun b => b == 0) with
  | none => some (.error .invalidData)
  | some idx =>
    if 1 ≤ idx then some (.ok (slice.take (idx - 1)))
    else none

/-- Engine handle, embedding the fields of `struct Mdx` (`src/src/mdx.rs`)
used by lookup: the payload encoding, the key-block vector, the
record-info vector and the record region.  `record_region` holds the file
bytes from `record_block_offset` on; the reader/cursor is subsumed by it,
and the record cache is modelled in its initial (empty) state, so
`find_definition` below is the `Entry::Vacant` path. -/
structure Mdx where
  encoding : Enc
  key_blocks : List KeyBlock
  records_info : List BlockEntryInfo
  record_region : List Nat

/-- Embeds `reader.seek` + `read_buf(reader, len)` relative to the record
region: `read_exact` past the end of the file is an io error (not a
panic). -/
def read_region (region : List Nat) (off len : Nat) : Option (List Nat) :=
  if off + len ≤ region.length then some ((region.drop off).take len)
  else none

/-- Embeds `find_definition` (`src/src/parser.rs` lines 543-563) on a
fresh handle (empty record cache, hence the `Entry::Vacant` branch):
seek and read `record_size` bytes at `buf_offset`, `decode_block` them,
then run the nested `find` from `block_offset` on.  `none` models a
panic. -/
def find_definition (c : Codec) (mdx : Mdx) (off : RecordOffset) :
    Option (Except Error (List Nat)) :=
  match read_region mdx.record_region off.buf_offset off.record_size with
  | none => some (.error .failedReading)
  | some data =>
    match decode_block c data off.record_size off.decomp_size with
    | none => none
    | some (.error e) => some (.error e)
    | some (.ok decompressed) =>
      match safeDrop decompressed off.block_offset with
      | none => none
      | some s => slice_to_string s

/-- Embeds `lookup_record` (`src/src/parser.rs` lines 565-576): block
bisect, entry bisect, offset translation, record fetch; any missing step
yields `Ok(None)`.  The payload of a successful lookup is the definition
byte sequence. -/
def lookup_record (c : Codec) (mdx : Mdx) (word : List Nat) :
    Option (Except Error (Option (List Nat))) :=
  match bisect_search mdx.key_blocks (fun b => b.partialCmp word) with
  | none => some (.ok none)
  | some key_block =>
    match bisect_search key_block.entries
        (fun e => e.partialCmpSrc word) with
    | none => some (.ok none)
    | some entry =>
      match record_offset mdx.records_info entry with
      | none => some (.ok none)
      | some off =>
        match find_definition c mdx off with
        | none => none
        | some (.error e) => some (.error e)
        | some (.ok d) => some (.ok (some d))

/-- Models `encoding_rs::Encoding::for_label` (external crate), restricted
to the labels relevant to MDict files; every other label — the empty
string among them — is unknown and yields `none`, exactly as the real
registry does. -/
def encodingForLabel (label : String) : Option Enc :=
  if label = "UTF-8" ∨ label = "utf-8" ∨ label = "UTF8" ∨ label = "utf8" then
    some .utf8
  else if label = "UTF-16" ∨ label = "utf-16" ∨ label = "UTF-16LE" ∨
      label = "utf-16le" then
    some .utf16le
  else if label = "GBK" ∨ label = "gbk" ∨ label = "GB18030" ∨
      label = "gb18030" then
    some .gb18030
  else if label = "BIG5" ∨ label = "Big5" ∨ label = "big5" then
    some .big5
  else
    none

/-- Embeds the encoding selection of `read_header` in the newer variant
(`src/mdict/src/parser.rs` lines 115-125): MDD is forced to UTF-16LE; for
MDX a present `Encoding` attribute — whatever its value, the empty string
included — is resolved through the registry (`for_label`), an absent
attribute defaults to UTF-8. -/
def select_encoding (for_label : String → Option Enc) (mode : Mode)
    (attr : Option String) : Except Error Enc :=
  match mode with
  | .mdd => .ok .utf16le
  | .mdx =>
    match attr with
    | some encoding =>
      match for_label encoding with
      | some e => .ok e
      | none => .error (.invalidEncoding encoding)
    | none => .ok .utf8

/-- Embeds the encoding selection of `read_header` in the older variant
(`src/src/parser.rs` lines 123-132): a present but empty attribute and an
absent attribute both fall back to the caller-supplied default encoding,
which `load` (`src/src/parser.rs` line 432) fixes to UTF-16LE. -/
def select_encoding_v0 (for_label : String → Option Enc)
    (default_encoding : Enc) (attr : Option String) : Except Error Enc :=
  match attr with
  | some encoding =>
    if encoding = "" then .ok default_encoding
    else
      match for_label encoding with
      | some e => .ok e
      | none => .error (.invalidEncoding encoding)
  | none => .ok default_encoding

/-- Embeds the version parsing of `read_header` (`src/src/parser.rs`
lines 100-113, identical to `src/mdict/src/parser.rs` lines 93-105).  The
input is the `GeneratedByEngineVersion` attribute after `trim()`, as a
UTF-8 byte list (`none` = attribute absent).  `version_str[0..1]` panics
— modelled by the outer `none` — when the trimmed string is empty or its
first character occupies more than one byte (index 1 is then not a char
boundary); otherwise `parse::<u8>` of the one-byte string succeeds
exactly on a decimal digit, and the match maps 1 to V1, 2 to V2 and every
other digit (`3 | _`) to `unsupported-version`. -/
def read_version (attr : Option (List Nat)) :
    Option (Except Error Version) :=
  match attr with
  | none => some (.error .noVersion)
  | some [] => none
  | some (b :: rest) =>
    if 0x80 ≤ b then none
    else if 48 ≤ b ∧ b ≤ 57 then
      match b - 48 with
      | 1 => some (.ok .V1)
      | 2 => some (.ok .V2)
      | d => some (.error (.unsupportedVersion d))
    else
      some (.error (.invalidVersion (b :: rest)))

/-- Concrete codec whose external functions are inert: zlib and lzo always
fail, RIPEMD-128 is the all-zero 16-byte digest, Salsa20 is the identity
keystream.  Used to evaluate the embedded parser on concrete inputs whose
control flow never reaches a successful decompression. -/
def codecZero : Codec :=
  ⟨fun _ => none, fun _ _ => none, fun _ => List.replicate 16 0,
    fun _ data => data⟩

/-- Concrete codec whose zlib decompresses the body `[1]` to `[0]` and
fails on everything else. -/
def codecA : Codec :=
  ⟨fun l => if l = [1] then some [0] else none, fun _ _ => none,
    fun _ => List.replicate 16 0, fun _ data => data⟩

/-- Concrete codec whose zlib decompresses the body `[9]` to `[]` and
fails on everything else. -/
def codecB : Codec :=
  ⟨fun l => if l = [9] then some [] else none, fun _ _ => none,
    fun _ => List.replicate 16 0, fun _ data => data⟩

/-- Concrete codec whose zlib decompresses `[166]` — the fast-descrambled
form of the single byte `9` under the all-zero 16-byte key — to `[]` and
fails on everything else. -/
def codecC : Codec :=
  ⟨fun l => if l = [166] then some [] else none, fun _ _ => none,
    fun _ => List.replicate 16 0, fun _ data => data⟩

theorem cmpByte_eq_iff (a b : Nat) : cmpByte a b = .eq ↔ a = b := by
  constructor
  · intro h
    unfold cmpByte at h
    by_cases h1 : a < b
    · rw [if_pos h1] at h
      cases h
    · rw [if_neg h1] at h
      by_cases h2 : a = b
      · exact h2
      · rw [if_neg h2] at h
        cases h
  · intro h
    subst h
    simp [cmpByte]

theorem cmpBytes_eq_iff (a b : List Nat) : cmpBytes a b = .eq ↔ a = b := by
  induction a generalizing b with
  | nil => cases b <;> simp [cmpBytes]
  | cons x xs ih =>
    cases b with
    | nil => simp [cmpBytes]
    | cons y ys =>
      simp only [cmpBytes]
      cases h : cmpByte x y with
      | lt =>
        show Ordering.lt = Ordering.eq ↔ _
        constructor
        · intro hc; cases hc
        · intro hc
          injection hc with h1 h2
          have h3 := (cmpByte_eq_iff x y).mpr h1
          rw [h] at h3
          cases h3
      | eq =>
        show cmpBytes xs ys = Ordering.eq ↔ _
        have hxy := (cmpByte_eq_iff x y).mp h
        subst hxy
        rw [ih]
        simp
      | gt =>
        show Ordering.gt = Ordering.eq ↔ _
        constructor
        · intro hc; cases hc
        · intro hc
          injection hc with h1 h2
          have h3 := (cmpByte_eq_iff x y).mpr h1
          rw [h] at h3
          cases h3

theorem cmpBytes_self (a : List Nat) : cmpBytes a a = .eq :=
  (cmpBytes_eq_iff a a).mpr rfl

/-- Transitivity bridge: if `a ≤ b` (comparison is not `gt`) and `b < c`
then `a < c`. -/
theorem cmpBytes_le_lt_trans :
    ∀ (a b c : List Nat), cmpBytes a b ≠ .gt → cmpBytes b c = .lt →
      cmpBytes a c = .lt := by
  intro a
  induction a with
  | nil =>
    intro b c _ hbc
    cases c with
    | nil =>
      cases b with
      | nil => cases hbc
      | cons y ys => simp [cmpBytes] at hbc
    | cons z zs => simp [cmpBytes]
  | cons x xs ih =>
    intro b c hab hbc
    cases b with
    | nil => simp [cmpBytes] at hab
    | cons y ys =>
      cases c with
      | nil => simp [cmpBytes] at hbc
      | cons z zs =>
        simp only [cmpBytes] at hab hbc ⊢
        rcases hxy : cmpByte x y with _ | _ | _ <;>
          rcases hyz : cmpByte y z with _ | _ | _ <;>
            simp only [hxy, hyz] at hab hbc ⊢ <;>
              unfold cmpByte at hxy hyz ⊢ <;>
                (try split_ifs) <;> split_ifs at hxy hyz <;> first
                  | rfl
                  | omega
                  | (exact ih ys zs hab hbc)
                  | (exact absurd rfl hab)
                  | (exact absurd hbc (by simp))

theorem bisect_loop_sound {α : Type} (cmp : α → Option Ordering) :
    ∀ (fuel : Nat) (s : List α) (x : α),
      bisect_loop cmp fuel s = some (some x) →
        cmp x = some .eq ∧ x ∈ s := by
  intro fuel
  induction fuel with
  | zero =>
    intro s x h
    simp [bisect_loop] at h
  | succ fuel ih =>
    intro s x h
    cases s with
    | nil => simp [bisect_loop] at h
    | cons a rest =>
      rw [bisect_loop] at h
      split at h
      · cases h
      · rcases ih _ _ h with ⟨h1, h2⟩
        exact ⟨h1, List.take_subset _ _ h2⟩
      · injection h with h'
        injection h' with h''
        subst h''
        constructor
        · assumption
        · exact List.get_mem _ _ _
      · split at h
        · cases h
        · rcases ih _ _ h with ⟨h1, h2⟩
          exact ⟨h1, List.drop_subset _ _ h2⟩

theorem bisect_loop_fuel {α : Type} (cmp : α → Option Ordering) :
    ∀ (f1 f2 : Nat) (s : List α), s.length < f1 → s.length < f2 →
      bisect_loop cmp f1 s = bisect_loop cmp f2 s := by
  intro f1
  induction f1 with
  | zero =>
    intro f2 s h1 _
    exact absurd h1 (Nat.not_lt_zero _)
  | succ f1 ih =>
    intro f2 s h1 h2
    cases f2 with
    | zero => exact absurd h2 (Nat.not_lt_zero _)
    | succ f2 =>
      cases s with
      | nil => rfl
      | cons a rest =>
        rw [bisect_loop, bisect_loop]
        have hlen : (a :: rest).length = rest.length + 1 := rfl
        cases hcmp : cmp ((a :: rest).get ⟨(a :: rest).length / 2,
            Nat.div_lt_self (Nat.succ_pos rest.length) (by omega)⟩) with
        | none => simp [hcmp]
        | some o =>
          cases o with
          | lt =>
            simp only [hcmp]
            by_cases hnext : (a :: rest).length / 2 + 1 ≥ (a :: rest).length
            · rw [if_pos hnext, if_pos hnext]
            · rw [if_neg hnext, if_neg hnext]
              apply ih
              · have := List.length_drop ((a :: rest).length / 2 + 1) (a :: rest)
                omega
              · have := List.length_drop ((a :: rest).length / 2 + 1) (a :: rest)
                omega
          | eq => simp [hcmp]
          | gt =>
            simp only [hcmp]
            apply ih
            · have hd : (a :: rest).length / 2 < (a :: rest).length :=
                Nat.div_lt_self (Nat.succ_pos rest.length) (by omega)
              have := List.length_take ((a :: rest).length / 2) (a :: rest)
              omega
            · have hd : (a :: rest).length / 2 < (a :: rest).length :=
                Nat.div_lt_self (Nat.succ_pos rest.length) (by omega)
              have := List.length_take ((a :: rest).length / 2) (a :: rest)
              omega

theorem bisect_search_sound {α : Type} (s : List α)
    (cmp : α → Option Ordering) (x : α)
    (h : bisect_search s cmp = some x) : cmp x = some .eq ∧ x ∈ s := by
  unfold bisect_search at h
  cases hb : bisect_loop cmp (s.length + 1) s with
  | none => rw [hb] at h; cases h
  | some r =>
    rw [hb] at h
    cases r with
    | none => simp only [Option.getD] at h; cases h
    | some y =>
      simp only [Option.getD] at h
      injection h with h'
      subst h'
      exact bisect_loop_sound cmp _ s _ hb

theorem fast_decrypt_go_length (key : List Nat) :
    ∀ (l : List Nat) (i prev : Nat),
      (fast_decrypt_go key l i prev).length = l.length := by
  intro l
  induction l with
  | nil => intro i prev; rfl
  | cons b rest ih =>
    intro i prev
    simp [fast_decrypt_go, ih]

theorem fast_decrypt_go_getD (key : List Nat) :
    ∀ (l : List Nat) (i0 prev j : Nat), j < l.length →
      (fast_decrypt_go key l i0 prev).getD j 0 =
        ((((l.getD j 0 >>> 4) ||| ((l.getD j 0 <<< 4) % 256)) ^^^
          (if j = 0 then prev else l.getD (j - 1) 0)) ^^^
          ((i0 + j) % 256)) ^^^ key.getD ((i0 + j) % key.length) 0 := by
  intro l
  induction l with
  | nil =>
    intro i0 prev j h
    simp at h
  | cons b rest ih =>
    intro i0 prev j h
    cases j with
    | zero => simp [fast_decrypt_go]
    | succ j =>
      have hj : j < rest.length := by
        simp at h
        omega
      have := ih (i0 + 1) b j hj
      simp only [fast_decrypt_go, List.getD_cons_succ]
      rw [this]
      have harith : i0 + 1 + j = i0 + (j + 1) := by omega
      rw [harith]
      cases j with
      | zero => simp
      | succ j' => simp

theorem findIdx?_first_zero :
    ∀ (s : List Nat) (idx : Nat), idx < s.length →
      s.getD idx 1 = 0 → (∀ j, j < idx → s.getD j 1 ≠ 0) →
      s.findIdx? (fun b => b == 0) = some idx := by
  intro s
  induction s with
  | nil =>
    intro idx h
    simp at h
  | cons a rest ih =>
    intro idx hlen hzero hbefore
    cases idx with
    | zero =>
      simp at hzero
      simp [List.findIdx?_cons, hzero]
    | succ idx =>
      have ha : a ≠ 0 := by
        have := hbefore 0 (Nat.succ_pos idx)
        simpa using this
      have hlen' : idx < rest.length := by
        simp at hlen
        omega
      have hzero' : rest.getD idx 1 = 0 := by
        simpa using hzero
      have hbefore' : ∀ j, j < idx → rest.getD j 1 ≠ 0 := by
        intro j hj
        have := hbefore (j + 1) (by omega)
        simpa using this
      have hrec := ih idx hlen' hzero' hbefore'
      simp [List.findIdx?_cons, ha, hrec]

/-- C1: block-level lookup compares the query `q` to a key block by the
source ordering — for a block whose entries are present and whose
first-entry text does not exceed its last-entry text (the key-block
invariant), the comparison is `Less` iff the last-entry text is less than
`q`, `Greater` iff the first-entry text is greater than `q`, and `Equal`
otherwise; the midpoint bisect over the key-block vector returns only a
block comparing `Equal` (descending into it), and returns `None` when the
vector is exhausted without one, in particular on the empty vector. -/
theorem C1_block_ordering_and_bisect :
    (∀ (b : KeyBlock) (q : List Nat) (first last : KeyEntry),
        b.entries.head? = some first →
        b.entries.getLast? = some last →
        cmpBytes first.text last.text ≠ .gt →
        ((b.partialCmp q = some .lt ↔ cmpBytes last.text q = .lt) ∧
         (b.partialCmp q = some .gt ↔ cmpBytes first.text q = .gt) ∧
         (cmpBytes first.text q ≠ .gt → cmpBytes last.text q ≠ .lt →
           b.partialCmp q = some .eq))) ∧
    (∀ (blocks : List KeyBlock) (q : List Nat) (blk : KeyBlock),
        bisect_search blocks (fun b => b.partialCmp q) = some blk →
        blk ∈ blocks ∧ blk.partialCmp q = some .eq) ∧
    (∀ (blocks : List KeyBlock) (q : List Nat),
        bisect_search blocks (fun b => b.partialCmp q) = none ∨
        ∃ blk, bisect_search blocks (fun b => b.partialCmp q) = some blk ∧
          blk.partialCmp q = some .eq) ∧
    (∀ (q : List Nat),
        bisect_search ([] : List KeyBlock) (fun b => b.partialCmp q) =
          none) := by
  refine ⟨?_, ?_, ?_, ?_⟩
  · intro b q first last hf hl hsort
    simp only [KeyBlock.partialCmp, hf, hl]
    by_cases h1 : cmpBytes first.text q = .gt
    · rw [if_pos h1]
      refine ⟨?_, ?_, ?_⟩
      · constructor
        · intro hc
          injection hc with hc'
          cases hc'
        · intro hlt
          have := cmpBytes_le_lt_trans first.text last.text q hsort hlt
          rw [h1] at this
          cases this
      · exact ⟨fun _ => h1, fun _ => rfl⟩
      · intro hng _
        exact absurd h1 hng
    · rw [if_neg h1]
      by_cases h2 : cmpBytes last.text q = .lt
      · rw [if_pos h2]
        refine ⟨?_, ?_, ?_⟩
        · exact ⟨fun _ => h2, fun _ => rfl⟩
        · constructor
          · intro hc
            injection hc with hc'
            cases hc'
          · intro hgt
            exact absurd hgt h1
        · intro _ hnl
          exact absurd h2 hnl
      · rw [if_neg h2]
        refine ⟨?_, ?_, ?_⟩
        · constructor
          · intro hc
            injection hc with hc'
            cases hc'
          · intro hlt
            exact absurd hlt h2
        · constructor
          · intro hc
            injection hc with hc'
            cases hc'
          · intro hgt
            exact absurd hgt h1
        · intro _ _
          rfl
  · intro blocks q blk h
    have hs := bisect_search_sound blocks _ blk h
    exact ⟨hs.2, hs.1⟩
  · intro blocks q
    cases h : bisect_search blocks (fun b => b.partialCmp q) with
    | none => exact Or.inl rfl
    | some blk =>
      exact Or.inr ⟨blk, rfl, (bisect_search_sound _ _ _ h).1⟩
  · intro q
    rfl

/-- C1 witness: the theorem applied to the concrete two-entry block
`{[1], [3]}` and query `[2]`, which falls inside the block's range; the
hypotheses are discharged by evaluation and the `Equal` clause fires. -/
theorem C1_block_ordering_and_bisect_witness :
    (KeyBlock.mk [⟨0, [1]⟩, ⟨5, [3]⟩]).partialCmp [2] = some .eq :=
  ((C1_block_ordering_and_bisect).1 (KeyBlock.mk [⟨0, [1]⟩, ⟨5, [3]⟩]) [2]
      ⟨0, [1]⟩ ⟨5, [3]⟩ rfl rfl (by decide)).2.2 (by decide) (by decide)

/-- C10: `bisect_search` terminates on every slice and query — the fuelled
loop is independent of the fuel once it exceeds the slice length, because
the searched slice strictly shrinks on every iteration; a key block with
an empty entry list compares to no ordering (`None`), and a lookup whose
probed key block has no entries stops the search and returns `Ok(None)`
without a panic. -/
theorem C10_bisect_termination_empty_block :
    (∀ (α : Type) (cmp : α → Option Ordering) (fuel : Nat) (s : List α),
        s.length < fuel →
        bisect_loop cmp fuel s = bisect_loop cmp (s.length + 1) s) ∧
    (∀ (b : KeyBlock) (q : List Nat), b.entries = [] →
        b.partialCmp q = none) ∧
    (∀ (c : Codec) (mdx : Mdx) (q : List Nat) (kb : KeyBlock),
        mdx.key_blocks[mdx.key_blocks.length / 2]? = some kb →
        kb.entries = [] →
        lookup_record c mdx q = some (.ok none)) := by
  refine ⟨?_, ?_, ?_⟩
  · intro α cmp fuel s h
    exact bisect_loop_fuel cmp fuel (s.length + 1) s h (Nat.lt_succ_self _)
  · intro b q hb
    unfold KeyBlock.partialCmp
    rw [hb]
    rfl
  · intro c mdx q kb hk hke
    have hnone : bisect_search mdx.key_blocks
        (fun b => b.partialCmp q) = none := by
      cases hkb : mdx.key_blocks with
      | nil => rfl
      | cons a rest =>
        rw [hkb] at hk
        unfold bisect_search
        rw [bisect_loop]
        have hidx : (a :: rest).length / 2 < (a :: rest).length :=
          Nat.div_lt_self (Nat.succ_pos rest.length) (by omega)
        have hcur : (a :: rest).get ⟨(a :: rest).length / 2,
            Nat.div_lt_self (Nat.succ_pos rest.length) (by omega)⟩ = kb := by
          rw [List.getElem?_eq_getElem hidx] at hk
          exact Option.some.inj hk
        rw [hcur]
        have hcmp : kb.partialCmp q = none := by
          unfold KeyBlock.partialCmp
          rw [hke]
          rfl
        rw [hcmp]
        rfl
    unfold lookup_record
    rw [hnone]

/-- C10 witness: the theorem applied to a handle whose single key block
has an empty entry list; the lookup returns `Ok(None)`. -/
theorem C10_bisect_termination_empty_block_witness :
    lookup_record codecZero ⟨Enc.utf8, [KeyBlock.mk []], [], []⟩ [1] =
      some (.ok none) :=
  (C10_bisect_termination_empty_block).2.2 codecZero
    ⟨Enc.utf8, [KeyBlock.mk []], [], []⟩ [1] (KeyBlock.mk []) rfl rfl

/-- C2 counterexample: no single normalization function is applied to both
sides of both comparison levels.  Any function `n` matching the entry-level
comparison at entry text `"A"` and query `"a"` must identify the two
normalized forms, but the block-level comparison then could not order the
singleton block `{"A"}` strictly below the query `"a"`, which the source
comparison does (it compares the raw texts). -/
theorem C2_single_normalizer_counterexample :
    (KeyBlock.partialCmp ⟨[⟨0, [65]⟩]⟩ [97] = some .lt) ∧
    (KeyEntry.partialCmpMdict ⟨0, [65]⟩ [97] = some .eq) ∧
    ¬ ∃ n : List Nat → List Nat,
      (∀ (b : KeyBlock) (q : List Nat),
          b.partialCmp q = keyBlockCmpWith n b q) ∧
      (∀ (e : KeyEntry) (q : List Nat),
          e.partialCmpMdict q = keyEntryCmpWith n e q) := by
  refine ⟨by decide, by decide, ?_⟩
  rintro ⟨n, hb, he⟩
  have h1 := he ⟨0, [65]⟩ [97]
  have hlhs1 : KeyEntry.partialCmpMdict ⟨0, [65]⟩ [97] = some .eq := by
    decide
  rw [hlhs1] at h1
  unfold keyEntryCmpWith at h1
  have h1' : cmpBytes (n [65]) (n [97]) = .eq := by
    injection h1 with h1''
    exact h1''.symm
  have hn : n [65] = n [97] := (cmpBytes_eq_iff _ _).mp h1'
  have h2 := hb ⟨[⟨0, [65]⟩]⟩ [97]
  have hlhs2 : KeyBlock.partialCmp ⟨[⟨0, [65]⟩]⟩ [97] = some .lt := by
    decide
  rw [hlhs2] at h2
  have hrhs : keyBlockCmpWith n ⟨[⟨0, [65]⟩]⟩ [97] = some .eq := by
    show (if cmpBytes (n [65]) (n [97]) = .gt then some Ordering.gt
      else if cmpBytes (n [65]) (n [97]) = .lt then some Ordering.lt
      else some Ordering.eq) = some .eq
    rw [hn, cmpBytes_self]
    simp
  rw [hrhs] at h2
  injection h2 with h2'
  cases h2'

/-- C2 amended: in the newer variant, the entry-level comparison applies a
hard-coded fold — lowercase, then keep only lowercase characters — to
both the stored key text and the query at comparison time, while the
block-level comparison compares the raw first/last entry texts with the
raw query (no normalization); consequently a singleton block whose only
entry matches the query under the fold can still compare strictly Less at
block level, so the two levels do not compare identical normalized
forms. -/
theorem C2_mixed_normalization :
    (∀ (e : KeyEntry) (q : List Nat),
        e.partialCmpMdict q = keyEntryCmpWith key_fold e q) ∧
    (∀ (b : KeyBlock) (q : List Nat),
        b.partialCmp q = keyBlockCmpWith id b q) ∧
    (∀ (b : KeyBlock) (q : List Nat) (e : KeyEntry),
        b.entries = [e] → key_fold e.text = key_fold q →
        cmpBytes e.text q = .lt →
        b.partialCmp q = some .lt ∧
          e.partialCmpMdict q = some .eq) := by
  refine ⟨?_, ?_, ?_⟩
  · intro e q
    rfl
  · intro b q
    rfl
  · intro b q e hb hfold hlt
    constructor
    · unfold KeyBlock.partialCmp
      rw [hb]
      show (if cmpBytes e.text q = .gt then some Ordering.gt
        else if cmpBytes e.text q = .lt then some Ordering.lt
        else some Ordering.eq) = some .lt
      rw [hlt]
      simp
    · unfold KeyEntry.partialCmpMdict
      rw [hfold, cmpBytes_self]

/-- C2 amended witness: the block `{"A"}` against query `"a"` — equal
under the fold at entry level, strictly Less at block level. -/
theorem C2_mixed_normalization_witness :
    (KeyBlock.mk [⟨0, [65]⟩]).partialCmp [97] = some .lt ∧
      KeyEntry.partialCmpMdict ⟨0, [65]⟩ [97] = some .eq :=
  (C2_mixed_normalization).2.2 ⟨[⟨0, [65]⟩]⟩ [97] ⟨0, [65]⟩ rfl
    (by decide) (by decide)

/-- C3 counterexample: a V2 file whose compressed key-block-info fails its
Adler-32 — the stored checksum is 0 while the decompressed table `[0]`
hashes to 65537 — makes `open` fail with the tag `"header"`, not
`"key-info"`: `check_adler32` hard-codes `"header"` for every section. -/
theorem C3_checksum_tag_counterexample :
    read_key_block_infos codecA [2, 0, 0, 0, 0, 0, 0, 0, 1]
        ⟨.V2, 0, .utf8⟩ =
      some (.error (.invalidCheckSum "header")) ∧
    Error.invalidCheckSum "header" ≠ Error.invalidCheckSum "key-info" := by
  constructor
  · rfl
  · decide

/-- C3 amended: every Adler-32 mismatch error carries the static tag
`"header"`, whichever section actually failed; in particular a V2 file
whose compressed key-block-info fails its checksum makes `open` fail with
`invalid-checksum("header")` (and no handle, the error propagating through
`?`). -/
theorem C3_checksum_tag_always_header :
    (∀ (data : List Nat) (checksum : Nat), adler32 data ≠ checksum →
        check_adler32 data checksum = .error (.invalidCheckSum "header")) ∧
    (∀ (c : Codec) (buf : List Nat) (header : Header)
        (csB body info : List Nat),
        header.version = .V2 →
        safeSlice buf 0 4 = some [2, 0, 0, 0] →
        safeSlice buf 4 8 = some csB →
        safeDrop buf 8 = some body →
        (if header.encrypted = 2 then
            c.zlib (fast_decrypt body
              (c.ripemd (csB ++ [0x95, 0x36, 0, 0])))
          else c.zlib body) = some info →
        adler32 info ≠ be32 csB →
        read_key_block_infos c buf header =
          some (.error (.invalidCheckSum "header"))) := by
  constructor
  · intro data checksum h
    unfold check_adler32
    rw [if_pos h]
  · intro c buf header csB body info hver hmagic hcs hbody hz hadler
    have hchk : check_adler32 info (be32 csB) =
        .error (.invalidCheckSum "header") := by
      unfold check_adler32
      rw [if_pos hadler]
    simp only [read_key_block_infos, hver, hmagic, hcs, hbody]
    have hne : ¬ ([2, 0, 0, 0] : List Nat) ≠ [2, 0, 0, 0] := by simp
    rw [if_neg hne, hz]
    show (match check_adler32 info (be32 csB) with
      | Except.error e => some (Except.error e)
      | Except.ok _ => Option.map Except.ok (decode_key_blocks header info)) =
        some (Except.error (Error.invalidCheckSum "header"))
    rw [hchk]

/-- C3 amended witness: the amended theorem applied to the concrete
corrupted key-info input of the counterexample. -/
theorem C3_checksum_tag_always_header_witness :
    read_key_block_infos codecA [2, 0, 0, 0, 0, 0, 0, 0, 1]
        ⟨.V2, 0, .utf8⟩ =
      some (.error (.invalidCheckSum "header")) :=
  (C3_checksum_tag_always_header).2 codecA [2, 0, 0, 0, 0, 0, 0, 0, 1]
    ⟨.V2, 0, .utf8⟩ [0, 0, 0, 0] [1] [0] rfl (by decide) (by decide)
    (by decide) (by decide) (by decide)

/-- C4 counterexample: an MDX header whose `Encoding` attribute is present
but empty does not get UTF-8 — the newer variant pushes the empty label
through the registry, which rejects it, so `open` fails with
`invalid-encoding("")`; the older variant falls back to the caller's
default encoding, which `load` fixes to UTF-16LE, not UTF-8. -/
theorem C4_empty_encoding_counterexample :
    select_encoding encodingForLabel .mdx (some "") =
      .error (.invalidEncoding "") ∧
    select_encoding_v0 encodingForLabel .utf16le (some "") =
      .ok .utf16le ∧
    (Except.error (Error.invalidEncoding "") ≠
      (Except.ok Enc.utf8 : Except Error Enc)) ∧
    ((Except.ok Enc.utf16le : Except Error Enc) ≠ .ok .utf8) := by
  refine ⟨rfl, rfl, ?_, ?_⟩
  · intro h
    cases h
  · intro h
    injection h with h'
    cases h'

/-- C4 amended: when opening an MDX in the newer variant, an absent
`Encoding` attribute selects UTF-8 and a present label is resolved via the
encoding registry, with any unresolvable label — the empty string among
them, since the registry knows no empty label — raising invalid-encoding
carrying that label; an MDD is UTF-16LE regardless of the attribute.  In
the older variant an absent or empty attribute selects the caller-supplied
default encoding (UTF-16LE at the `load` call site). -/
theorem C4_encoding_selection :
    (∀ (for_label : String → Option Enc) (attr : Option String),
        select_encoding for_label .mdd attr = .ok .utf16le) ∧
    (∀ (for_label : String → Option Enc),
        select_encoding for_label .mdx none = .ok .utf8) ∧
    (∀ (for_label : String → Option Enc) (label : String),
        for_label label = none →
        select_encoding for_label .mdx (some label) =
          .error (.invalidEncoding label)) ∧
    (∀ (for_label : String → Option Enc) (label : String) (e : Enc),
        for_label label = some e →
        select_encoding for_label .mdx (some label) = .ok e) ∧
    (encodingForLabel "" = none) ∧
    (∀ (for_label : String → Option Enc) (d : Enc),
        select_encoding_v0 for_label d none = .ok d ∧
        select_encoding_v0 for_label d (some "") = .ok d) := by
  refine ⟨?_, ?_, ?_, ?_, ?_, ?_⟩
  · intro for_label attr
    rfl
  · intro for_label
    rfl
  · intro for_label label h
    simp only [select_encoding, h]
  · intro for_label label e h
    simp only [select_encoding, h]
  · rfl
  · intro for_label d
    exact ⟨rfl, rfl⟩

/-- C4 amended witness: the registry knows no label `"x-unknown"`, so the
MDX path raises invalid-encoding carrying it. -/
theorem C4_encoding_selection_witness :
    select_encoding encodingForLabel .mdx (some "x-unknown") =
      .error (.invalidEncoding "x-unknown") :=
  (C4_encoding_selection).2.2.1 encodingForLabel "x-unknown" rfl

/-- C5 counterexample: a V2 file with header `Encrypted = 3` — bit 1
(value 2) is set — is not unscrambled by the source, which tests equality
with 2: on the concrete key-info buffer `[2,0,0,0, 0,0,0,1, 9]` the source
feeds the raw body `[9]` to zlib and succeeds, while the spec-faithful
reader (bit test) first fast-descrambles the body to `[166]`, for which
this zlib fails; the two disagree although `3 &&& 2 ≠ 0`. -/
theorem C5_encrypted_bit_counterexample :
    read_key_block_infos codecB [2, 0, 0, 0, 0, 0, 0, 1, 9]
        ⟨.V2, 3, .utf8⟩ = some (.ok []) ∧
    read_key_block_infos_encBit codecB [2, 0, 0, 0, 0, 0, 0, 1, 9]
        ⟨.V2, 3, .utf8⟩ = some (.error .failedReading) ∧
    (3 : Nat) &&& 2 ≠ 0 ∧
    read_key_block_infos codecB [2, 0, 0, 0, 0, 0, 0, 1, 9]
        ⟨.V2, 3, .utf8⟩ ≠
      read_key_block_infos_encBit codecB [2, 0, 0, 0, 0, 0, 0, 1, 9]
        ⟨.V2, 3, .utf8⟩ := by
  refine ⟨rfl, rfl, by decide, ?_⟩
  intro h
  rw [show read_key_block_infos codecB [2, 0, 0, 0, 0, 0, 0, 1, 9]
      ⟨.V2, 3, .utf8⟩ = some (.ok []) from rfl] at h
  rw [show read_key_block_infos_encBit codecB [2, 0, 0, 0, 0, 0, 0, 1, 9]
      ⟨.V2, 3, .utf8⟩ = some (.error .failedReading) from rfl] at h
  injection h with h'
  cases h'

/-- C5 amended: for every V2 file whose header `Encrypted` value is
exactly 2 (the source tests equality with 2, not bit 1), the key-block-info
body after the magic and checksum is first unscrambled with the fast
scramble under key RIPEMD-128(4-byte checksum ++ u32-LE 0x3695), then
zlib-decompressed, and the Adler-32 of the decompressed table is verified
against the stored checksum; a wrong magic raises invalid-data. -/
theorem C5_keyinfo_unscramble_on_encrypted_2 :
    (∀ (c : Codec) (buf : List Nat) (header : Header),
        header.encrypted = 2 →
        read_key_block_infos c buf header =
          read_key_block_infos_encBit c buf header) ∧
    (∀ (c : Codec) (buf : List Nat) (header : Header) (magic : List Nat),
        header.version = .V2 →
        safeSlice buf 0 4 = some magic → magic ≠ [2, 0, 0, 0] →
        read_key_block_infos c buf header = some (.error .invalidData)) ∧
    (∀ (c : Codec) (buf csB body info : List Nat) (header : Header),
        header.version = .V2 → header.encrypted = 2 →
        safeSlice buf 0 4 = some [2, 0, 0, 0] →
        safeSlice buf 4 8 = some csB →
        safeDrop buf 8 = some body →
        c.zlib (fast_decrypt body
          (c.ripemd (csB ++ [0x95, 0x36, 0, 0]))) = some info →
        adler32 info = be32 csB →
        read_key_block_infos c buf header =
          (decode_key_blocks header info).map .ok) := by
  refine ⟨?_, ?_, ?_⟩
  · intro c buf header henc
    unfold read_key_block_infos read_key_block_infos_encBit
    rw [henc]
    rfl
  · intro c buf header magic hver hmagic hne
    simp only [read_key_block_infos, hver, hmagic]
    rw [if_pos hne]
  · intro c buf csB body info header hver henc hmagic hcs hbody hz hadler
    have hchk : check_adler32 info (be32 csB) = .ok () := by
      unfold check_adler32
      rw [if_neg (by simpa using hadler)]
    simp only [read_key_block_infos, hver, hmagic, hcs, hbody, henc]
    have hne : ¬ ([2, 0, 0, 0] : List Nat) ≠ [2, 0, 0, 0] := by simp
    rw [if_neg hne]
    simp only [if_true]
    rw [hz]
    show (match check_adler32 info (be32 csB) with
      | Except.error e => some (Except.error e)
      | Except.ok _ => Option.map Except.ok (decode_key_blocks header info)) =
        Option.map Except.ok (decode_key_blocks header info)
    rw [hchk]

/-- C5 amended witness: on the concrete buffer `[2,0,0,0, 0,0,0,1, 9]`
with `Encrypted = 2`, the body `[9]` is fast-descrambled to `[166]` under
the all-zero digest, zlib-decompressed to the empty table whose Adler-32
is the stored checksum 1, and parsing succeeds. -/
theorem C5_keyinfo_unscramble_on_encrypted_2_witness :
    read_key_block_infos codecC [2, 0, 0, 0, 0, 0, 0, 1, 9]
        ⟨.V2, 2, .utf8⟩ = some (.ok []) :=
  (C5_keyinfo_unscramble_on_encrypted_2).2.2 codecC
    [2, 0, 0, 0, 0, 0, 0, 1, 9] [0, 0, 0, 1] [9] [] ⟨.V2, 2, .utf8⟩
    rfl rfl (by decide) (by decide) (by decide) (by decide) (by decide)

/-- C6 counterexample: a header with `GeneratedByEngineVersion = "0.0"` is
rejected with unsupported-version(0), although 0 is a decimal digit below
3 — the source's `3 | _` match arm catches every digit other than 1 and
2, not only those at least 3. -/
theorem C6_version_zero_counterexample :
    read_version (some [48, 46, 48]) =
      some (.error (.unsupportedVersion 0)) ∧ ¬ (3 : Nat) ≤ 0 := by
  exact ⟨rfl, by omega⟩

/-- C6 amended: header version parsing raises unsupported-version(n)
exactly when the first character of the trimmed attribute is a decimal
digit n with n = 0 or n ≥ 3; digit 1 selects V1, digit 2 selects V2, a
non-digit ASCII first character raises invalid-version carrying the
trimmed string, and a missing attribute raises no-version.  (An attribute
that is empty after trimming, or starts with a multi-byte character,
panics in the byte slicing `version_str[0..1]` instead.) -/
theorem C6_version_parsing :
    (read_version none = some (.error .noVersion)) ∧
    (∀ rest, read_version (some (49 :: rest)) = some (.ok .V1)) ∧
    (∀ rest, read_version (some (50 :: rest)) = some (.ok .V2)) ∧
    (∀ (b : Nat) (rest : List Nat) (n : Nat), b < 0x80 →
        (read_version (some (b :: rest)) =
            some (.error (.unsupportedVersion n)) ↔
          (48 ≤ b ∧ b ≤ 57 ∧ n = b - 48 ∧ (n = 0 ∨ 3 ≤ n)))) ∧
    (∀ (b : Nat) (rest : List Nat), b < 0x80 → ¬ (48 ≤ b ∧ b ≤ 57) →
        read_version (some (b :: rest)) =
          some (.error (.invalidVersion (b :: rest)))) := by
  refine ⟨rfl, ?_, ?_, ?_, ?_⟩
  · intro rest
    simp [read_version]
  · intro rest
    simp [read_version]
  · intro b rest n hb
    simp only [read_version]
    rw [if_neg (by omega : ¬ (0x80 : Nat) ≤ b)]
    by_cases hd : 48 ≤ b ∧ b ≤ 57
    · rw [if_pos hd]
      obtain ⟨hd1, hd2⟩ := hd
      interval_cases b <;>
        (constructor
         · intro h
           simp at h
           try exact ⟨by omega, by omega, by omega, by omega⟩
         · rintro ⟨h1, h2, hn, hor⟩
           first
             | (exfalso; rcases hor with h | h <;> omega)
             | (rw [hn]; try rfl))
    · rw [if_neg hd]
      constructor
      · intro h
        exfalso
        simp at h
      · rintro ⟨h1, h2, _, _⟩
        exact absurd ⟨h1, h2⟩ hd
  · intro b rest hb hd
    simp only [read_version]
    rw [if_neg (by omega : ¬ (0x80 : Nat) ≤ b), if_neg hd]

/-- C6 amended witness: the amended theorem applied to the digit 9
(version string "9"), raising unsupported-version(9) with 9 ≥ 3. -/
theorem C6_version_parsing_witness :
    read_version (some [57]) = some (.error (.unsupportedVersion 9)) :=
  ((C6_version_parsing).2.2.2.1 57 [] 9 (by omega)).mpr
    ⟨by omega, by omega, by omega, Or.inr (by omega)⟩

/-- C7: for every byte sequence and 16-byte key the fast scramble
decryption satisfies the stated per-byte recurrence — `prev` starts at
0x36 and is the previous pre-transform byte; but when `decode_block`
dispatches encryption method 1 it panics instead of deriving the key:
`make_key` is handed the already-extracted 4-byte checksum slice and then
slices `data[4..8]` out of those 4 bytes, an out-of-bounds slice — shown
on a concrete 9-byte block whose header word selects encryption method 1
(the sibling derivation in `read_key_block_infos`, which takes
`buf[4..8]` of the full buffer, shows the intent the spec describes). -/
theorem C7_fast_scramble_formula_and_method1_panic :
    (∀ (b k : List Nat), k.length = 16 →
        (fast_decrypt b k).length = b.length ∧
        ∀ (i : Nat), i < b.length →
          (fast_decrypt b k).getD i 0 =
            ((((b.getD i 0 >>> 4) ||| ((b.getD i 0 <<< 4) % 256)) ^^^
              (if i = 0 then 0x36 else b.getD (i - 1) 0)) ^^^
              (i % 256)) ^^^ k.getD (i % 16) 0) ∧
    decode_block codecZero [16, 0, 0, 0, 0, 0, 0, 0, 65] 9 1 = none := by
  constructor
  · intro b k hk
    constructor
    · exact fast_decrypt_go_length k b 0 0x36
    · intro i hi
      have h := fast_decrypt_go_getD k b 0 0x36 i hi
      simpa [hk] using h
  · rfl

/-- C7 witness: the recurrence evaluated at the single byte 9 under the
all-zero 16-byte key — the scrambled byte is 166. -/
theorem C7_fast_scramble_formula_witness :
    (List.replicate 16 0).length = 16 ∧
    (fast_decrypt [9] (List.replicate 16 0)).getD 0 0 =
      (((([9].getD 0 0 >>> 4) ||| (([9].getD 0 0 <<< 4) % 256)) ^^^
        (if (0 : Nat) = 0 then 0x36 else [9].getD (0 - 1) 0)) ^^^
        ((0 : Nat) % 256)) ^^^ (List.replicate 16 0).getD (0 % 16) 0 :=
  ⟨by decide,
    ((C7_fast_scramble_formula_and_method1_panic).1 [9]
      (List.replicate 16 0) (by decide)).2 0 (by decide)⟩

theorem except_tail_isSome (y : Except Error (List Nat)) (checksum : Nat) :
    (match y with
      | Except.error e => some (Except.error e)
      | Except.ok decompressed =>
        match check_adler32 decompressed checksum with
        | Except.error e => some (Except.error e)
        | Except.ok _ => some (Except.ok decompressed)).isSome = true := by
  cases y with
  | error e => simp
  | ok d =>
    cases h : check_adler32 d checksum with
    | error e => simp [h]
    | ok u => simp [h]

/-- C8 counterexample: a truncated input does panic rather than fail with
an io or invalid-data error — the key-block-info walk on the 1-byte table
`[0]` reads `data[0..4]` out of bounds, and `decode_block` on an empty
buffer reads `raw[0..4]` out of bounds (`none` is the panic of the
embedding, not an error return). -/
theorem C8_truncation_panic_counterexample :
    decode_key_blocks ⟨.V1, 0, .utf8⟩ [0] = none ∧
    decode_block codecZero [] 0 0 = none := ⟨rfl, rfl⟩

/-- C8 amended: `decode_block`'s reads of `raw[0..4]`, `raw[4..8]` and
`raw[8..compressed_size]` stay in bounds — no panic, every outcome an
explicit result or error — when `8 ≤ compressed_size ≤ raw.len` and the
encryption method is 0; when `compressed_size < 8` or
`compressed_size > raw.len` the slicing is out of bounds and the code
panics instead of reporting an error (and the walk over the packed
key-block-info table likewise panics on truncated tables, as the
counterexample shows). -/
theorem C8_decode_block_bounds :
    (∀ (c : Codec) (slice : List Nat) (cs ds : Nat),
        cs < 8 ∨ slice.length < cs →
        decode_block c slice cs ds = none) ∧
    (∀ (c : Codec) (slice : List Nat) (cs ds : Nat),
        8 ≤ cs → cs ≤ slice.length →
        (le32 (slice.take 4) >>> 4) &&& 0xf = 0 →
        (decode_block c slice cs ds).isSome = true) := by
  constructor
  · intro c slice cs ds h
    unfold decode_block
    by_cases h4 : 4 ≤ slice.length
    · have hs1 : safeSlice slice 0 4 = some (slice.take 4) := by
        unfold safeSlice
        rw [if_pos ⟨by omega, by omega⟩]
        rfl
      rw [hs1]
      by_cases h8 : 8 ≤ slice.length
      · have hs2 : safeSlice slice 4 8 = some ((slice.drop 4).take 4) := by
          unfold safeSlice
          rw [if_pos ⟨by omega, by omega⟩]
        rw [hs2]
        have hs3 : safeSlice slice 8 cs = none := by
          unfold safeSlice
          rw [if_neg (by omega : ¬ (8 ≤ cs ∧ cs ≤ slice.length))]
        rw [hs3]
      · have hs2 : safeSlice slice 4 8 = none := by
          unfold safeSlice
          rw [if_neg (by omega : ¬ (4 ≤ 8 ∧ 8 ≤ slice.length))]
        rw [hs2]
    · have hs1 : safeSlice slice 0 4 = none := by
        unfold safeSlice
        rw [if_neg (by omega : ¬ (0 ≤ 4 ∧ 4 ≤ slice.length))]
      rw [hs1]
  · intro c slice cs ds h8 hlen hm
    have hs1 : safeSlice slice 0 4 = some (slice.take 4) := by
      unfold safeSlice
      rw [if_pos ⟨by omega, by omega⟩]
      rfl
    have hs2 : safeSlice slice 4 8 = some ((slice.drop 4).take 4) := by
      unfold safeSlice
      rw [if_pos ⟨by omega, by omega⟩]
    have hs3 : safeSlice slice 8 cs =
        some ((slice.drop 8).take (cs - 8)) := by
      unfold safeSlice
      rw [if_pos ⟨by omega, by omega⟩]
    simp only [decode_block, hs1, hs2, hs3, hm]
    exact except_tail_isSome _ _

/-- C8 amended witness: an 8-byte all-zero block (encryption method 0,
compression 0) with `compressed_size = 8` decodes without a panic. -/
theorem C8_decode_block_bounds_witness :
    (decode_block codecZero [0, 0, 0, 0, 0, 0, 0, 0] 8 0).isSome = true :=
  (C8_decode_block_bounds).2 codecZero [0, 0, 0, 0, 0, 0, 0, 0] 8 0
    (by decide) (by decide) (by decide)

/-- C9: when an MDX lookup reaches a decoded record block, the returned
definition is the decode of the bytes strictly before index `idx - 1` of
the slice starting at the entry's block offset, where `idx` is the
position of the first zero byte in that slice — the byte immediately
preceding the first NUL is excluded; when the first zero byte sits at
index 0 the subtraction underflows and the slicing panics, so the decode
is only defined for `idx ≥ 1`. -/
theorem C9_definition_excludes_byte_before_nul :
    (∀ (s : List Nat) (idx : Nat),
        idx < s.length → s.getD idx 1 = 0 →
        (∀ j, j < idx → s.getD j 1 ≠ 0) →
        (1 ≤ idx →
          slice_to_string s = some (.ok (s.take (idx - 1)))) ∧
        (idx = 0 → slice_to_string s = none)) ∧
    (∀ (c : Codec) (mdx : Mdx) (off : RecordOffset) (data d : List Nat),
        read_region mdx.record_region off.buf_offset off.record_size =
          some data →
        decode_block c data off.record_size off.decomp_size =
          some (.ok d) →
        off.block_offset ≤ d.length →
        find_definition c mdx off =
          slice_to_string (d.drop off.block_offset)) := by
  constructor
  · intro s idx hlen hz hfirst
    have hf : s.findIdx? (fun b => b == 0) = some idx :=
      findIdx?_first_zero s idx hlen hz hfirst
    constructor
    · intro h1
      simp only [slice_to_string, hf]
      rw [if_pos h1]
    · intro h0
      subst h0
      simp only [slice_to_string, hf]
      rw [if_neg (by omega : ¬ (1 : Nat) ≤ 0)]
  · intro c mdx off data d hread hdec hbo
    have hsd : safeDrop d off.block_offset =
        some (d.drop off.block_offset) := by
      unfold safeDrop
      rw [if_pos hbo]
    simp only [find_definition, hread, hdec, hsd]

/-- C9 witness: in the slice `[65, 66, 0, 67]` the first zero byte sits at
index 2, and the returned definition bytes are `[65]` — index 1, the byte
immediately before the NUL, is excluded. -/
theorem C9_definition_excludes_byte_before_nul_witness :
    slice_to_string [65, 66, 0, 67] = some (.ok [65]) :=
  ((C9_definition_excludes_byte_before_nul).1 [65, 66, 0, 67] 2
    (by decide) (by decide) (by decide)).1 (by decide)
